import Mathlib

/-!
Verification of the QOI ("Quite OK Image") decoder in `src/main.cpp`.

The decoder is embedded shallowly: machine bytes are natural numbers kept
below 256 by explicit `% 256`, the input stream is a list of bytes, and the
nested row/column loop of `do_decode_image` is linearised over grid
positions (position `k` is row `k / width`, column `k % width`, exactly the
order the C++ loop visits).  A failed `istream::read` in the C++ source
does not stop decoding (the stream's fail state is never checked); it
merely leaves the destination variable unchanged, so reads are modelled by
`readInto`, which takes the destination's current value, and the value of
the two uninitialized local byte variables is the parameter `junk`.
-/

set_option autoImplicit false

/-- A pixel: four 8-bit unsigned channels (`struct Pixel` in the source),
modelled as naturals kept below 256 by the decoding operations. -/
structure Pixel where
  r : Nat
  g : Nat
  b : Nat
  a : Nat
deriving DecidableEq, Repr

/-- The function `qoi_pix_hash` from the source:
`((int)(p.r * 3 + p.g * 5 + p.b * 7 + p.a * 11)) % 64`.
The `uint8_t` channels are promoted to `int`, the sum is at most
`255 * 26`, so the `int` arithmetic never overflows and `%` on the
non-negative sum is plain remainder. -/
def qoi_pix_hash (p : Pixel) : Nat :=
  (p.r * 3 + p.g * 5 + p.b * 7 + p.a * 11) % 64

/-- The decoder's running state inside `do_decode_image`:
the 64-slot history array `memory`, `last_pix`, `run_length`, and the
bytes remaining on the input stream. -/
structure DecSt where
  memory : List Pixel
  last_pix : Pixel
  run_length : Nat
  input : List Nat
deriving DecidableEq, Repr

/-- One `in.read` of a single byte into a variable whose current value is
`cur`: a successful read replaces it with the next stream byte, while a
read past the end of the stream extracts nothing and leaves the variable
unchanged (the source never checks the stream's fail state). -/
def readInto (cur : Nat) : List Nat → Nat × List Nat
  | [] => (cur % 256, [])
  | byte :: rest => (byte % 256, rest)

/-- The decoder's only failure exit: the `else` branch of the dispatch
prints the offending starting byte together with `x:` (column) and `y:`
(row) and calls `exit(-1)`. -/
inductive DecodeError where
  | unknownChunk (byte : Nat) (x : Nat) (y : Nat)
deriving DecidableEq, Repr

/-- The dispatch on `starting_byte` inside `do_decode_image`'s loop body
(the `if`/`else if` chain on lines 83-140 of the source), for one grid
position `k` (column `k % width`, row `k / width`).  `inp` is the stream
after the starting byte was consumed.  `res` starts as `{0,0,0,255}`, so
the reads into its channels default to `0,0,0,255` when the stream is
exhausted. -/
def decodeOp (junk width k starting_byte : Nat) (inp : List Nat) (st : DecSt) :
    Except DecodeError (Pixel × DecSt) :=
  if starting_byte = 254 then -- QOI_OP_RGB
    let r := (readInto 0 inp).1
    let in1 := (readInto 0 inp).2
    let g := (readInto 0 in1).1
    let in2 := (readInto 0 in1).2
    let b := (readInto 0 in2).1
    let in3 := (readInto 0 in2).2
    -- res.a = last_pix.a : the alpha value remains unchanged
    let res : Pixel := ⟨r, g, b, st.last_pix.a⟩
    .ok (res, ⟨st.memory.set (qoi_pix_hash res) res, res, st.run_length, in3⟩)
  else if starting_byte = 255 then -- QOI_OP_RGBA
    let r := (readInto 0 inp).1
    let in1 := (readInto 0 inp).2
    let g := (readInto 0 in1).1
    let in2 := (readInto 0 in1).2
    let b := (readInto 0 in2).1
    let in3 := (readInto 0 in2).2
    let a := (readInto 255 in3).1
    let in4 := (readInto 255 in3).2
    let res : Pixel := ⟨r, g, b, a⟩
    .ok (res, ⟨st.memory.set (qoi_pix_hash res) res, res, st.run_length, in4⟩)
  else if (starting_byte >>> 6) &&& 3 = 0 then -- QOI_OP_INDEX
    let index := starting_byte &&& 63
    let res := st.memory.getD index ⟨0, 0, 0, 0⟩
    -- res came from memory, so it is not saved back to memory
    .ok (res, ⟨st.memory, res, st.run_length, inp⟩)
  else if (starting_byte >>> 6) &&& 3 = 1 then -- QOI_OP_DIFF
    -- bias of +2: each 2-bit field minus 2, assigned to uint8_t (mod 256);
    -- `+ 254` is the `- 2` of the source carried out in Nat
    let res : Pixel :=
      ⟨(st.last_pix.r + ((starting_byte >>> 4) &&& 3) + 254) % 256,
       (st.last_pix.g + ((starting_byte >>> 2) &&& 3) + 254) % 256,
       (st.last_pix.b + ((starting_byte >>> 0) &&& 3) + 254) % 256,
       st.last_pix.a⟩
    .ok (res, ⟨st.memory.set (qoi_pix_hash res) res, res, st.run_length, inp⟩)
  else if (starting_byte >>> 6) &&& 3 = 2 then -- QOI_OP_LUMA
    let second_byte := (readInto junk inp).1
    let in1 := (readInto junk inp).2
    -- uint8_t dg = (starting_byte & 63) - 32; `+ 224` is `- 32` in Nat
    let dg := ((starting_byte &&& 63) + 224) % 256
    let dr_minus_dg := (((second_byte >>> 4) &&& 15) + 248) % 256
    let db_minus_dg := (((second_byte >>> 0) &&& 15) + 248) % 256
    let res : Pixel :=
      ⟨(st.last_pix.r + dr_minus_dg + dg) % 256,
       (st.last_pix.g + dg) % 256,
       (st.last_pix.b + db_minus_dg + dg) % 256,
       st.last_pix.a⟩
    .ok (res, ⟨st.memory.set (qoi_pix_hash res) res, res, st.run_length, in1⟩)
  else if (starting_byte >>> 6) &&& 3 = 3 then -- QOI_OP_RUN
    -- bias of -1: run_length = (starting_byte & 63) + 1, then run_length--
    let run1 := (starting_byte &&& 63) + 1
    .ok (st.last_pix, ⟨st.memory, st.last_pix, run1 - 1, inp⟩)
  else
    .error (.unknownChunk starting_byte (k % width) (k / width))

/-- One grid position of `do_decode_image`'s inner loop body: if a run is
pending, emit `last_pix` and decrement `run_length` without reading input;
otherwise read `starting_byte` and dispatch.  The emitted pixel is written
to the grid and becomes `last_pix` (encoded here by returning it and by
`decodeOp` storing it in the state). -/
def decodeStep (junk width k : Nat) (st : DecSt) :
    Except DecodeError (Pixel × DecSt) :=
  if st.run_length ≠ 0 then
    .ok (st.last_pix, { st with run_length := st.run_length - 1 })
  else
    decodeOp junk width k ((readInto junk st.input).1) ((readInto junk st.input).2) st

/-- The nested row/column loop of `do_decode_image`, linearised over grid
positions: `n` positions remain and the next one is position `k`.  The
emitted pixels are collected row-major, exactly the order `decoded.set`
writes them. -/
def decodeLoop (junk width : Nat) : Nat → Nat → DecSt → Except DecodeError (List Pixel)
  | _, 0, _ => .ok []
  | k, n + 1, st =>
    match decodeStep junk width k st with
    | .error e => .error e
    | .ok (p, st1) => (decodeLoop junk width (k + 1) n st1).map (fun ps => p :: ps)

/-- The function `do_decode_image`: decode a `width × height` grid from the byte
stream, starting from a zero-initialized 64-slot history array,
`last_pix = {0, 0, 0, 255}` and `run_length = 0`. -/
def do_decode_image (junk width height : Nat) (input : List Nat) :
    Except DecodeError (List Pixel) :=
  decodeLoop junk width 0 (width * height)
    ⟨List.replicate 64 ⟨0, 0, 0, 0⟩, ⟨0, 0, 0, 255⟩, 0, input⟩

/-- The starting byte the dispatcher would read in state `st`. -/
def headByte (junk : Nat) (st : DecSt) : Nat :=
  (readInto junk st.input).1

/-- The operations that record the decoded pixel into the history table:
QOI_OP_RGB, QOI_OP_RGBA, QOI_OP_DIFF and QOI_OP_LUMA (a pending run emits
without reading a byte, and QOI_OP_INDEX and QOI_OP_RUN do not record). -/
def recordsToTable (junk : Nat) (st : DecSt) : Prop :=
  st.run_length = 0 ∧
    (headByte junk st = 254 ∨ headByte junk st = 255 ∨
     (headByte junk st >>> 6) &&& 3 = 1 ∨ (headByte junk st >>> 6) &&& 3 = 2)

instance (junk : Nat) (st : DecSt) : Decidable (recordsToTable junk st) := by
  unfold recordsToTable
  infer_instance

/-! ### Helper lemmas -/

theorem and_three_eq_mod (x : Nat) : x &&& 3 = x % 4 := by
  simpa using Nat.and_pow_two_sub_one_eq_mod x 2

theorem and_fifteen_eq_mod (x : Nat) : x &&& 15 = x % 16 := by
  simpa using Nat.and_pow_two_sub_one_eq_mod x 4

theorem and_sixtythree_eq_mod (x : Nat) : x &&& 63 = x % 64 := by
  simpa using Nat.and_pow_two_sub_one_eq_mod x 6

theorem shiftRight_six (x : Nat) : x >>> 6 = x / 64 := by
  rw [Nat.shiftRight_eq_div_pow]

theorem shiftRight_four (x : Nat) : x >>> 4 = x / 16 := by
  rw [Nat.shiftRight_eq_div_pow]

theorem shiftRight_two (x : Nat) : x >>> 2 = x / 4 := by
  rw [Nat.shiftRight_eq_div_pow]

/-- The dispatch never fails: every starting byte matches one of the six
operations, so the final `else` is unreachable. -/
theorem decodeOp_isOk (junk width k sb : Nat) (inp : List Nat) (st : DecSt) :
    ∃ p st1, decodeOp junk width k sb inp st = .ok (p, st1) := by
  have hle : (sb >>> 6) &&& 3 ≤ 3 := Nat.and_le_right
  unfold decodeOp
  repeat' split
  all_goals first
    | exact ⟨_, _, rfl⟩
    | omega

/-- Every decode step succeeds, whatever the state. -/
theorem decodeStep_isOk (junk width k : Nat) (st : DecSt) :
    ∃ p st1, decodeStep junk width k st = .ok (p, st1) := by
  unfold decodeStep
  split
  · exact ⟨_, _, rfl⟩
  · exact decodeOp_isOk junk width k _ _ st

/-- The decode loop always returns a grid with exactly one pixel per
remaining position. -/
theorem decodeLoop_isOk (junk width : Nat) :
    ∀ n k st, ∃ ps, decodeLoop junk width k n st = .ok ps ∧ ps.length = n := by
  intro n
  induction n with
  | zero => exact fun k st => ⟨[], rfl, rfl⟩
  | succ n ih =>
    intro k st
    obtain ⟨p, st1, hstep⟩ := decodeStep_isOk junk width k st
    obtain ⟨ps, hps, hlen⟩ := ih (k + 1) st1
    refine ⟨p :: ps, ?_, by simp [hlen]⟩
    simp [decodeLoop, hstep, hps, Except.map]

/-! ### Claim theorems -/

/-- C6: the pixel hash is `(r*3 + g*5 + b*7 + a*11) mod 64`, a function of
the four channel values only, always below 64, and `hash {0,0,0,0} = 0`. -/
theorem qoi_pix_hash_spec :
    (∀ r g b a : Nat,
      qoi_pix_hash ⟨r, g, b, a⟩ = (r * 3 + g * 5 + b * 7 + a * 11) % 64) ∧
    (∀ p : Pixel, qoi_pix_hash p < 64) ∧
    qoi_pix_hash ⟨0, 0, 0, 0⟩ = 0 :=
  ⟨fun _ _ _ _ => rfl, fun _ => Nat.mod_lt _ (by decide), rfl⟩

/-- C5: a QOI_OP_RGB chunk (tag byte `0xFE`) decodes, from every preceding
state, to the pixel whose r, g, b are the three bytes after the tag and
whose alpha is exactly `last_pix.a`; the pixel is recorded into the
history table at its hash, becomes `last_pix`, and the three bytes are
consumed. -/
theorem rgb_decodes_with_alpha_carry (junk width k : Nat) (st : DecSt)
    (r g b : Nat) (rest : List Nat) (hrun : st.run_length = 0)
    (hr : r < 256) (hg : g < 256) (hb : b < 256)
    (hin : st.input = 254 :: r :: g :: b :: rest) :
    decodeStep junk width k st =
      .ok (⟨r, g, b, st.last_pix.a⟩,
        ⟨st.memory.set (qoi_pix_hash ⟨r, g, b, st.last_pix.a⟩)
            ⟨r, g, b, st.last_pix.a⟩,
         ⟨r, g, b, st.last_pix.a⟩, 0, rest⟩) := by
  simp [decodeStep, hrun, hin, readInto, decodeOp,
        Nat.mod_eq_of_lt hr, Nat.mod_eq_of_lt hg, Nat.mod_eq_of_lt hb]

/-- Witness for C5: decoding `FE 0A 14 1E` after a pixel with alpha 7
yields `{10, 20, 30, 7}`. -/
theorem rgb_decodes_with_alpha_carry_witness :
    ((⟨[], ⟨9, 9, 9, 7⟩, 0, [254, 10, 20, 30]⟩ : DecSt).run_length = 0 ∧
      (10 : Nat) < 256 ∧ (20 : Nat) < 256 ∧ (30 : Nat) < 256 ∧
      (⟨[], ⟨9, 9, 9, 7⟩, 0, [254, 10, 20, 30]⟩ : DecSt).input =
        254 :: 10 :: 20 :: 30 :: []) ∧
    decodeStep 0 1 0 ⟨[], ⟨9, 9, 9, 7⟩, 0, [254, 10, 20, 30]⟩ =
      .ok (⟨10, 20, 30, 7⟩, ⟨[], ⟨10, 20, 30, 7⟩, 0, []⟩) :=
  ⟨⟨rfl, by decide, by decide, by decide, rfl⟩,
   rgb_decodes_with_alpha_carry 0 1 0 _ 10 20 30 [] rfl
     (by decide) (by decide) (by decide) rfl⟩

/-- C7: a QOI_OP_INDEX chunk (top two bits `00`, so tag byte below 64)
emits the history table slot `tag &&& 63` verbatim and leaves every slot
of the table unchanged. -/
theorem index_is_read_only (junk width k : Nat) (st : DecSt) (sb : Nat)
    (rest : List Nat) (hrun : st.run_length = 0) (hsb : sb < 64)
    (hin : st.input = sb :: rest) :
    decodeStep junk width k st =
      .ok (st.memory.getD (sb &&& 63) ⟨0, 0, 0, 0⟩,
        ⟨st.memory, st.memory.getD (sb &&& 63) ⟨0, 0, 0, 0⟩, 0, rest⟩) := by
  have h0 : (sb >>> 6) &&& 3 = 0 := by
    rw [shiftRight_six, and_three_eq_mod]
    omega
  have h254 : ¬(sb = 254) := by omega
  have h255 : ¬(sb = 255) := by omega
  simp [decodeStep, hrun, hin, readInto, decodeOp,
        Nat.mod_eq_of_lt (show sb < 256 by omega), h0, h254, h255]

/-- Witness for C7: the chunk `05` reads back slot 5 and the table is
untouched. -/
theorem index_is_read_only_witness :
    ((⟨[⟨1, 1, 1, 1⟩, ⟨2, 2, 2, 2⟩], ⟨9, 9, 9, 9⟩, 0, [1]⟩ : DecSt).run_length = 0 ∧
      (1 : Nat) < 64 ∧
      (⟨[⟨1, 1, 1, 1⟩, ⟨2, 2, 2, 2⟩], ⟨9, 9, 9, 9⟩, 0, [1]⟩ : DecSt).input = 1 :: []) ∧
    decodeStep 0 1 0 ⟨[⟨1, 1, 1, 1⟩, ⟨2, 2, 2, 2⟩], ⟨9, 9, 9, 9⟩, 0, [1]⟩ =
      .ok (⟨2, 2, 2, 2⟩,
        ⟨[⟨1, 1, 1, 1⟩, ⟨2, 2, 2, 2⟩], ⟨2, 2, 2, 2⟩, 0, []⟩) :=
  ⟨⟨rfl, by decide, rfl⟩,
   index_is_read_only 0 1 0 _ 1 [] rfl (by decide) rfl⟩

/-- C3: a QOI_OP_DIFF chunk (top two bits `01`) adds, to each channel of
`last_pix`, the corresponding 2-bit field minus 2, with unsigned 8-bit
wraparound; alpha is carried over and the pixel is recorded into the
history table at its hash. -/
theorem diff_wraparound (junk width k : Nat) (st : DecSt) (sb : Nat)
    (rest : List Nat) (hrun : st.run_length = 0) (hsb : sb < 256)
    (hop : (sb >>> 6) &&& 3 = 1) (hin : st.input = sb :: rest) :
    ∃ res st1, decodeStep junk width k st = .ok (res, st1) ∧
      (res.r : Int) = ((st.last_pix.r : Int) + (((sb >>> 4) &&& 3 : Nat) : Int) - 2) % 256 ∧
      (res.g : Int) = ((st.last_pix.g : Int) + (((sb >>> 2) &&& 3 : Nat) : Int) - 2) % 256 ∧
      (res.b : Int) = ((st.last_pix.b : Int) + ((sb &&& 3 : Nat) : Int) - 2) % 256 ∧
      res.a = st.last_pix.a ∧
      st1.memory = st.memory.set (qoi_pix_hash res) res ∧
      st1.last_pix = res ∧ st1.input = rest := by
  have hdiv : sb / 64 % 4 = 1 := by
    rw [← shiftRight_six, ← and_three_eq_mod]
    exact hop
  have h254 : ¬(sb = 254) := by omega
  have h255 : ¬(sb = 255) := by omega
  have h0 : ¬((sb >>> 6) &&& 3 = 0) := by omega
  have hstep : decodeStep junk width k st =
      .ok (⟨(st.last_pix.r + ((sb >>> 4) &&& 3) + 254) % 256,
            (st.last_pix.g + ((sb >>> 2) &&& 3) + 254) % 256,
            (st.last_pix.b + (sb &&& 3) + 254) % 256,
            st.last_pix.a⟩,
        ⟨st.memory.set
            (qoi_pix_hash
              ⟨(st.last_pix.r + ((sb >>> 4) &&& 3) + 254) % 256,
               (st.last_pix.g + ((sb >>> 2) &&& 3) + 254) % 256,
               (st.last_pix.b + (sb &&& 3) + 254) % 256,
               st.last_pix.a⟩)
            ⟨(st.last_pix.r + ((sb >>> 4) &&& 3) + 254) % 256,
             (st.last_pix.g + ((sb >>> 2) &&& 3) + 254) % 256,
             (st.last_pix.b + (sb &&& 3) + 254) % 256,
             st.last_pix.a⟩,
         ⟨(st.last_pix.r + ((sb >>> 4) &&& 3) + 254) % 256,
          (st.last_pix.g + ((sb >>> 2) &&& 3) + 254) % 256,
          (st.last_pix.b + (sb &&& 3) + 254) % 256,
          st.last_pix.a⟩, 0, rest⟩) := by
    simp [decodeStep, hrun, hin, readInto, decodeOp,
          Nat.mod_eq_of_lt hsb, h254, h255, h0, hop]
  refine ⟨_, _, hstep, ?_, ?_, ?_, rfl, rfl, rfl, rfl⟩
  · dsimp only
    omega
  · dsimp only
    omega
  · dsimp only
    omega

/-- Witness for C3: the chunk `40` (all 2-bit fields 0, deltas −2) applied
to `last_pix = {1, 5, 5, 9}` wraps r from 1 to 255. -/
theorem diff_wraparound_witness :
    ((⟨[], ⟨1, 5, 5, 9⟩, 0, [64]⟩ : DecSt).run_length = 0 ∧ (64 : Nat) < 256 ∧
      ((64 : Nat) >>> 6) &&& 3 = 1 ∧
      (⟨[], ⟨1, 5, 5, 9⟩, 0, [64]⟩ : DecSt).input = 64 :: []) ∧
    (∃ res st1, decodeStep 0 1 0 ⟨[], ⟨1, 5, 5, 9⟩, 0, [64]⟩ = .ok (res, st1) ∧
      (res.r : Int) =
        (((⟨[], ⟨1, 5, 5, 9⟩, 0, [64]⟩ : DecSt).last_pix.r : Int)
          + ((((64 : Nat) >>> 4) &&& 3 : Nat) : Int) - 2) % 256 ∧
      (res.g : Int) =
        (((⟨[], ⟨1, 5, 5, 9⟩, 0, [64]⟩ : DecSt).last_pix.g : Int)
          + ((((64 : Nat) >>> 2) &&& 3 : Nat) : Int) - 2) % 256 ∧
      (res.b : Int) =
        (((⟨[], ⟨1, 5, 5, 9⟩, 0, [64]⟩ : DecSt).last_pix.b : Int)
          + ((((64 : Nat) &&& 3 : Nat)) : Int) - 2) % 256 ∧
      res.a = (⟨[], ⟨1, 5, 5, 9⟩, 0, [64]⟩ : DecSt).last_pix.a ∧
      st1.memory =
        (⟨[], ⟨1, 5, 5, 9⟩, 0, [64]⟩ : DecSt).memory.set (qoi_pix_hash res) res ∧
      st1.last_pix = res ∧ st1.input = []) :=
  ⟨⟨rfl, by decide, by decide, rfl⟩,
   diff_wraparound 0 1 0 _ 64 [] rfl (by decide) (by decide) rfl⟩

/-- C2: a QOI_OP_LUMA chunk (top two bits `10`) followed by a second byte
decodes to `g = last_pix.g + dg`, `r = last_pix.r + (dr-dg) + dg`,
`b = last_pix.b + (db-dg) + dg` modulo 256, where `dg` is the tag's low 6
bits minus 32 and `(dr-dg)`, `(db-dg)` are the second byte's high and low
nibbles minus 8; alpha is carried over and the pixel is recorded into the
history table at its hash. -/
theorem luma_decodes (junk width k : Nat) (st : DecSt) (sb b2 : Nat)
    (rest : List Nat) (hrun : st.run_length = 0) (hsb : sb < 256)
    (hop : (sb >>> 6) &&& 3 = 2) (hb2 : b2 < 256)
    (hin : st.input = sb :: b2 :: rest) :
    ∃ res st1, decodeStep junk width k st = .ok (res, st1) ∧
      (res.g : Int) = ((st.last_pix.g : Int) + (((sb &&& 63 : Nat) : Int) - 32)) % 256 ∧
      (res.r : Int) = ((st.last_pix.r : Int) + ((((b2 >>> 4) &&& 15 : Nat) : Int) - 8)
          + (((sb &&& 63 : Nat) : Int) - 32)) % 256 ∧
      (res.b : Int) = ((st.last_pix.b : Int) + (((b2 &&& 15 : Nat) : Int) - 8)
          + (((sb &&& 63 : Nat) : Int) - 32)) % 256 ∧
      res.a = st.last_pix.a ∧
      st1.memory = st.memory.set (qoi_pix_hash res) res ∧
      st1.last_pix = res ∧ st1.input = rest := by
  have hdiv : sb / 64 % 4 = 2 := by
    rw [← shiftRight_six, ← and_three_eq_mod]
    exact hop
  have h254 : ¬(sb = 254) := by omega
  have h255 : ¬(sb = 255) := by omega
  have h0 : ¬((sb >>> 6) &&& 3 = 0) := by omega
  have h1 : ¬((sb >>> 6) &&& 3 = 1) := by omega
  have hstep : decodeStep junk width k st =
      .ok (⟨(st.last_pix.r + (((b2 >>> 4) &&& 15) + 248) % 256 + ((sb &&& 63) + 224) % 256) % 256,
            (st.last_pix.g + ((sb &&& 63) + 224) % 256) % 256,
            (st.last_pix.b + ((b2 &&& 15) + 248) % 256 + ((sb &&& 63) + 224) % 256) % 256,
            st.last_pix.a⟩,
        ⟨st.memory.set
            (qoi_pix_hash
              ⟨(st.last_pix.r + (((b2 >>> 4) &&& 15) + 248) % 256 + ((sb &&& 63) + 224) % 256) % 256,
               (st.last_pix.g + ((sb &&& 63) + 224) % 256) % 256,
               (st.last_pix.b + ((b2 &&& 15) + 248) % 256 + ((sb &&& 63) + 224) % 256) % 256,
               st.last_pix.a⟩)
            ⟨(st.last_pix.r + (((b2 >>> 4) &&& 15) + 248) % 256 + ((sb &&& 63) + 224) % 256) % 256,
             (st.last_pix.g + ((sb &&& 63) + 224) % 256) % 256,
             (st.last_pix.b + ((b2 &&& 15) + 248) % 256 + ((sb &&& 63) + 224) % 256) % 256,
             st.last_pix.a⟩,
         ⟨(st.last_pix.r + (((b2 >>> 4) &&& 15) + 248) % 256 + ((sb &&& 63) + 224) % 256) % 256,
          (st.last_pix.g + ((sb &&& 63) + 224) % 256) % 256,
          (st.last_pix.b + ((b2 &&& 15) + 248) % 256 + ((sb &&& 63) + 224) % 256) % 256,
          st.last_pix.a⟩, 0, rest⟩) := by
    simp [decodeStep, hrun, hin, readInto, decodeOp,
          Nat.mod_eq_of_lt hsb, Nat.mod_eq_of_lt hb2, h254, h255, h0, h1, hop]
  refine ⟨_, _, hstep, ?_, ?_, ?_, rfl, rfl, rfl, rfl⟩
  · dsimp only
    omega
  · dsimp only
    omega
  · dsimp only
    omega

/-- Witness for C2: the chunk `80 00` (dg = −32, dr−dg = db−dg = −8)
applied to `last_pix = {100, 10, 7, 3}`. -/
theorem luma_decodes_witness :
    ((⟨[], ⟨100, 10, 7, 3⟩, 0, [128, 0]⟩ : DecSt).run_length = 0 ∧
      (128 : Nat) < 256 ∧ ((128 : Nat) >>> 6) &&& 3 = 2 ∧ (0 : Nat) < 256 ∧
      (⟨[], ⟨100, 10, 7, 3⟩, 0, [128, 0]⟩ : DecSt).input = 128 :: 0 :: []) ∧
    (∃ res st1,
      decodeStep 0 1 0 ⟨[], ⟨100, 10, 7, 3⟩, 0, [128, 0]⟩ = .ok (res, st1) ∧
      (res.g : Int) =
        (((⟨[], ⟨100, 10, 7, 3⟩, 0, [128, 0]⟩ : DecSt).last_pix.g : Int)
          + ((((128 : Nat) &&& 63 : Nat) : Int) - 32)) % 256 ∧
      (res.r : Int) =
        (((⟨[], ⟨100, 10, 7, 3⟩, 0, [128, 0]⟩ : DecSt).last_pix.r : Int)
          + ((((0 : Nat) >>> 4) &&& 15 : Nat) - 8)
          + ((((128 : Nat) &&& 63 : Nat) : Int) - 32)) % 256 ∧
      (res.b : Int) =
        (((⟨[], ⟨100, 10, 7, 3⟩, 0, [128, 0]⟩ : DecSt).last_pix.b : Int)
          + ((((0 : Nat) &&& 15 : Nat) : Int) - 8)
          + ((((128 : Nat) &&& 63 : Nat) : Int) - 32)) % 256 ∧
      res.a = (⟨[], ⟨100, 10, 7, 3⟩, 0, [128, 0]⟩ : DecSt).last_pix.a ∧
      st1.memory =
        (⟨[], ⟨100, 10, 7, 3⟩, 0, [128, 0]⟩ : DecSt).memory.set (qoi_pix_hash res) res ∧
      st1.last_pix = res ∧ st1.input = []) :=
  ⟨⟨rfl, by decide, by decide, by decide, rfl⟩,
   luma_decodes 0 1 0 _ 128 0 [] rfl (by decide) (by decide) (by decide) rfl⟩

/-- Unfolding of the decode loop at a successful step. -/
theorem decodeLoop_succ (junk width k n : Nat) (st : DecSt) (p : Pixel)
    (st1 : DecSt) (h : decodeStep junk width k st = .ok (p, st1)) :
    decodeLoop junk width k (n + 1) st =
      (decodeLoop junk width (k + 1) n st1).map (fun ps => p :: ps) := by
  simp [decodeLoop, h]

/-- Mapping the identity over an `Except` changes nothing. -/
theorem exceptMap_id {ε α : Type} (x : Except ε α) : x.map (fun a => a) = x := by
  cases x <;> rfl

/-- A QOI_OP_RUN chunk: reading a byte `sb` with `192 ≤ sb ≤ 253` emits
`last_pix` once and leaves `run_length = sb &&& 63`, touching neither the
history table nor `last_pix`. -/
theorem decodeStep_run (junk width k : Nat) (st : DecSt) (sb : Nat)
    (rest : List Nat) (hrun : st.run_length = 0) (h192 : 192 ≤ sb)
    (h253 : sb ≤ 253) (hin : st.input = sb :: rest) :
    decodeStep junk width k st =
      .ok (st.last_pix, ⟨st.memory, st.last_pix, sb &&& 63, rest⟩) := by
  have h3 : (sb >>> 6) &&& 3 = 3 := by
    rw [shiftRight_six, and_three_eq_mod]
    omega
  have h254 : ¬(sb = 254) := by omega
  have h255 : ¬(sb = 255) := by omega
  have h0 : ¬((sb >>> 6) &&& 3 = 0) := by omega
  have h1 : ¬((sb >>> 6) &&& 3 = 1) := by omega
  have h2 : ¬((sb >>> 6) &&& 3 = 2) := by omega
  simp [decodeStep, hrun, hin, readInto, decodeOp,
        Nat.mod_eq_of_lt (show sb < 256 by omega), h254, h255, h0, h1, h2, h3]

/-- A pending run of length `m` emits `m` copies of `last_pix` over the
next `m` grid positions (when they exist), consuming no input and leaving
the history table untouched. -/
theorem decodeLoop_run_emit (junk width : Nat) :
    ∀ m k n st, st.run_length = m → m ≤ n →
      decodeLoop junk width k n st =
        (decodeLoop junk width (k + m) (n - m) { st with run_length := 0 }).map
          (fun ps => List.replicate m st.last_pix ++ ps) := by
  intro m
  induction m with
  | zero =>
    intro k n st hrun _
    have hst : ({ st with run_length := 0 } : DecSt) = st := by
      cases st
      simp_all
    rw [hst]
    simp [exceptMap_id]
  | succ m ih =>
    intro k n st hrun hmn
    obtain ⟨n1, rfl⟩ : ∃ n1, n = n1 + 1 := ⟨n - 1, by omega⟩
    have hstep : decodeStep junk width k st =
        .ok (st.last_pix, { st with run_length := st.run_length - 1 }) := by
      unfold decodeStep
      rw [if_pos (by omega)]
    rw [decodeLoop_succ junk width k n1 st _ _ hstep]
    rw [ih (k + 1) n1 _ (by simp [hrun]) (by omega)]
    dsimp only
    rw [show k + 1 + m = k + (m + 1) from by omega,
        show n1 - m = n1 + 1 - (m + 1) from by omega]
    cases decodeLoop junk width (k + (m + 1)) (n1 + 1 - (m + 1))
        { st with run_length := 0 } <;>
      simp [Except.map, List.replicate_succ]

/-- A pending run at least as long as the remaining grid fills every
remaining position with `last_pix` and succeeds; the surplus count is
discarded when the loop ends. -/
theorem decodeLoop_run_fill (junk width : Nat) :
    ∀ n k st, n ≤ st.run_length →
      decodeLoop junk width k n st = .ok (List.replicate n st.last_pix) := by
  intro n
  induction n with
  | zero =>
    intro k st _
    rfl
  | succ n ih =>
    intro k st h
    have hstep : decodeStep junk width k st =
        .ok (st.last_pix, { st with run_length := st.run_length - 1 }) := by
      unfold decodeStep
      rw [if_pos (by omega)]
    rw [decodeLoop_succ junk width k n st _ _ hstep,
        ih (k + 1) _ (by dsimp only; omega)]
    simp [Except.map, List.replicate_succ]

/-- C4: a QOI_OP_RUN chunk with 6-bit field `v = sb &&& 63` fills exactly
`v + 1` grid positions with copies of `last_pix` before the next tag byte
is consumed, and the history table is not written (the decode continues
from the same table, the same `last_pix`, and the stream right after the
tag). -/
theorem run_emits_count (junk width k n : Nat) (st : DecSt) (sb : Nat)
    (rest : List Nat) (hrun : st.run_length = 0) (h192 : 192 ≤ sb)
    (h253 : sb ≤ 253) (hin : st.input = sb :: rest)
    (hn : (sb &&& 63) + 1 ≤ n) :
    decodeLoop junk width k n st =
      (decodeLoop junk width (k + ((sb &&& 63) + 1)) (n - ((sb &&& 63) + 1))
          ⟨st.memory, st.last_pix, 0, rest⟩).map
        (fun ps => List.replicate ((sb &&& 63) + 1) st.last_pix ++ ps) := by
  obtain ⟨n1, rfl⟩ : ∃ n1, n = n1 + 1 := ⟨n - 1, by omega⟩
  rw [decodeLoop_succ junk width k n1 st _ _
      (decodeStep_run junk width k st sb rest hrun h192 h253 hin)]
  rw [decodeLoop_run_emit junk width (sb &&& 63) (k + 1) n1
      ⟨st.memory, st.last_pix, sb &&& 63, rest⟩ rfl (by omega)]
  dsimp only
  rw [show k + 1 + (sb &&& 63) = k + ((sb &&& 63) + 1) from by omega,
      show n1 - (sb &&& 63) = n1 + 1 - ((sb &&& 63) + 1) from by omega]
  cases decodeLoop junk width (k + ((sb &&& 63) + 1)) (n1 + 1 - ((sb &&& 63) + 1))
      ⟨st.memory, st.last_pix, 0, rest⟩ <;>
    simp [Except.map, List.replicate_succ]

/-- Witness for C4: the chunk `FD` (field value 61) at the start of a
62-position grid produces exactly 62 copies of `last_pix`. -/
theorem run_emits_count_witness :
    ((⟨List.replicate 64 ⟨0, 0, 0, 0⟩, ⟨0, 0, 0, 255⟩, 0, [253]⟩ : DecSt).run_length = 0 ∧
      (192 : Nat) ≤ 253 ∧ (253 : Nat) ≤ 253 ∧
      (⟨List.replicate 64 ⟨0, 0, 0, 0⟩, ⟨0, 0, 0, 255⟩, 0, [253]⟩ : DecSt).input = 253 :: [] ∧
      ((253 : Nat) &&& 63) + 1 ≤ 62) ∧
    decodeLoop 0 62 0 62 ⟨List.replicate 64 ⟨0, 0, 0, 0⟩, ⟨0, 0, 0, 255⟩, 0, [253]⟩ =
      (decodeLoop 0 62 (0 + (((253 : Nat) &&& 63) + 1)) (62 - (((253 : Nat) &&& 63) + 1))
          ⟨(⟨List.replicate 64 ⟨0, 0, 0, 0⟩, ⟨0, 0, 0, 255⟩, 0, [253]⟩ : DecSt).memory,
           (⟨List.replicate 64 ⟨0, 0, 0, 0⟩, ⟨0, 0, 0, 255⟩, 0, [253]⟩ : DecSt).last_pix,
           0, []⟩).map
        (fun ps =>
          List.replicate (((253 : Nat) &&& 63) + 1)
            (⟨List.replicate 64 ⟨0, 0, 0, 0⟩, ⟨0, 0, 0, 255⟩, 0, [253]⟩ : DecSt).last_pix ++ ps) :=
  ⟨⟨rfl, by decide, by decide, rfl, by decide⟩,
   run_emits_count 0 62 0 62 _ 253 [] rfl (by decide) (by decide) rfl (by decide)⟩

/-- C10: a QOI_OP_RUN chunk whose repeat count reaches past the final grid
position is silently truncated: the remaining `n` positions are all filled
with `last_pix`, the surplus count is discarded, and no error is raised. -/
theorem run_truncated_at_grid_end (junk width k n : Nat) (st : DecSt) (sb : Nat)
    (rest : List Nat) (hrun : st.run_length = 0) (h192 : 192 ≤ sb)
    (h253 : sb ≤ 253) (hin : st.input = sb :: rest) (h1 : 1 ≤ n)
    (hn : n ≤ (sb &&& 63) + 1) :
    decodeLoop junk width k n st = .ok (List.replicate n st.last_pix) := by
  obtain ⟨n1, rfl⟩ : ∃ n1, n = n1 + 1 := ⟨n - 1, by omega⟩
  have h63 : sb &&& 63 = sb % 64 := and_sixtythree_eq_mod sb
  rw [decodeLoop_succ junk width k n1 st _ _
      (decodeStep_run junk width k st sb rest hrun h192 h253 hin)]
  rw [decodeLoop_run_fill junk width n1 (k + 1)
      ⟨st.memory, st.last_pix, sb &&& 63, rest⟩ (by dsimp only; omega)]
  simp [Except.map, List.replicate_succ]

/-- Witness for C10: the chunk `FD` (repeat count 62) on a grid with only
2 remaining positions fills both with `last_pix` and succeeds. -/
theorem run_truncated_at_grid_end_witness :
    ((⟨List.replicate 64 ⟨0, 0, 0, 0⟩, ⟨0, 0, 0, 255⟩, 0, [253]⟩ : DecSt).run_length = 0 ∧
      (192 : Nat) ≤ 253 ∧ (253 : Nat) ≤ 253 ∧
      (⟨List.replicate 64 ⟨0, 0, 0, 0⟩, ⟨0, 0, 0, 255⟩, 0, [253]⟩ : DecSt).input = 253 :: [] ∧
      (1 : Nat) ≤ 2 ∧ (2 : Nat) ≤ ((253 : Nat) &&& 63) + 1) ∧
    decodeLoop 0 2 0 2 ⟨List.replicate 64 ⟨0, 0, 0, 0⟩, ⟨0, 0, 0, 255⟩, 0, [253]⟩ =
      .ok (List.replicate 2
        (⟨List.replicate 64 ⟨0, 0, 0, 0⟩, ⟨0, 0, 0, 255⟩, 0, [253]⟩ : DecSt).last_pix) :=
  ⟨⟨rfl, by decide, by decide, rfl, by decide, by decide⟩,
   run_truncated_at_grid_end 0 2 0 2 _ 253 [] rfl (by decide) (by decide) rfl
     (by decide) (by decide)⟩

/-- C1: after every decode step the new `last_pix` is exactly the pixel
just emitted, and the history table is overwritten — at slot `hash(p)`,
with `p` itself — exactly when the step was a recording operation
(QOI_OP_RGB, QOI_OP_RGBA, QOI_OP_DIFF, QOI_OP_LUMA); a pending run,
QOI_OP_INDEX and QOI_OP_RUN leave every slot unchanged. -/
theorem last_pix_and_table_invariant (junk width k : Nat) (st : DecSt)
    (p : Pixel) (st1 : DecSt)
    (h : decodeStep junk width k st = .ok (p, st1)) :
    st1.last_pix = p ∧
      (recordsToTable junk st → st1.memory = st.memory.set (qoi_pix_hash p) p) ∧
      (¬recordsToTable junk st → st1.memory = st.memory) := by
  by_cases hrun : st.run_length = 0
  case neg =>
    unfold decodeStep at h
    rw [if_pos hrun] at h
    simp only [Except.ok.injEq, Prod.mk.injEq] at h
    obtain ⟨rfl, rfl⟩ := h
    exact ⟨rfl, fun hrec => absurd hrec.1 hrun, fun _ => rfl⟩
  case pos =>
    unfold decodeStep at h
    rw [if_neg (by omega)] at h
    unfold decodeOp at h
    by_cases h254 : (readInto junk st.input).1 = 254
    · rw [if_pos h254] at h
      simp only [Except.ok.injEq, Prod.mk.injEq] at h
      obtain ⟨rfl, rfl⟩ := h
      exact ⟨rfl, fun _ => rfl, fun hn => absurd ⟨hrun, Or.inl h254⟩ hn⟩
    · rw [if_neg h254] at h
      by_cases h255 : (readInto junk st.input).1 = 255
      · rw [if_pos h255] at h
        simp only [Except.ok.injEq, Prod.mk.injEq] at h
        obtain ⟨rfl, rfl⟩ := h
        exact ⟨rfl, fun _ => rfl, fun hn => absurd ⟨hrun, Or.inr (Or.inl h255)⟩ hn⟩
      · rw [if_neg h255] at h
        by_cases hop0 : ((readInto junk st.input).1 >>> 6) &&& 3 = 0
        · rw [if_pos hop0] at h
          simp only [Except.ok.injEq, Prod.mk.injEq] at h
          obtain ⟨rfl, rfl⟩ := h
          refine ⟨rfl, fun hrec => ?_, fun _ => rfl⟩
          rcases hrec.2 with hc | hc | hc | hc
          · exact absurd hc h254
          · exact absurd hc h255
          · unfold headByte at hc
            omega
          · unfold headByte at hc
            omega
        · rw [if_neg hop0] at h
          by_cases hop1 : ((readInto junk st.input).1 >>> 6) &&& 3 = 1
          · rw [if_pos hop1] at h
            simp only [Except.ok.injEq, Prod.mk.injEq] at h
            obtain ⟨rfl, rfl⟩ := h
            exact ⟨rfl, fun _ => rfl,
              fun hn => absurd ⟨hrun, Or.inr (Or.inr (Or.inl hop1))⟩ hn⟩
          · rw [if_neg hop1] at h
            by_cases hop2 : ((readInto junk st.input).1 >>> 6) &&& 3 = 2
            · rw [if_pos hop2] at h
              simp only [Except.ok.injEq, Prod.mk.injEq] at h
              obtain ⟨rfl, rfl⟩ := h
              exact ⟨rfl, fun _ => rfl,
                fun hn => absurd ⟨hrun, Or.inr (Or.inr (Or.inr hop2))⟩ hn⟩
            · rw [if_neg hop2] at h
              by_cases hop3 : ((readInto junk st.input).1 >>> 6) &&& 3 = 3
              · rw [if_pos hop3] at h
                simp only [Except.ok.injEq, Prod.mk.injEq] at h
                obtain ⟨rfl, rfl⟩ := h
                refine ⟨rfl, fun hrec => ?_, fun _ => rfl⟩
                rcases hrec.2 with hc | hc | hc | hc
                · exact absurd hc h254
                · exact absurd hc h255
                · unfold headByte at hc
                  omega
                · unfold headByte at hc
                  omega
              · rw [if_neg hop3] at h
                exact absurd h (by simp)

/-- Witness for C1: a QOI_OP_RGB step; the emitted pixel becomes
`last_pix` and is recorded into the table. -/
theorem last_pix_and_table_invariant_witness :
    decodeStep 0 1 0 ⟨[], ⟨0, 0, 0, 255⟩, 0, [254, 1, 2, 3]⟩ =
      .ok (⟨1, 2, 3, 255⟩, ⟨[], ⟨1, 2, 3, 255⟩, 0, []⟩) ∧
    ((⟨[], ⟨1, 2, 3, 255⟩, 0, []⟩ : DecSt).last_pix = ⟨1, 2, 3, 255⟩ ∧
      (recordsToTable 0 ⟨[], ⟨0, 0, 0, 255⟩, 0, [254, 1, 2, 3]⟩ →
        (⟨[], ⟨1, 2, 3, 255⟩, 0, []⟩ : DecSt).memory =
          ([] : List Pixel).set (qoi_pix_hash ⟨1, 2, 3, 255⟩) ⟨1, 2, 3, 255⟩) ∧
      (¬recordsToTable 0 ⟨[], ⟨0, 0, 0, 255⟩, 0, [254, 1, 2, 3]⟩ →
        (⟨[], ⟨1, 2, 3, 255⟩, 0, []⟩ : DecSt).memory = ([] : List Pixel))) :=
  ⟨rfl, last_pix_and_table_invariant 0 1 0 _ _ _ rfl⟩

/-- C8 (the code, unlike the claim, does not fail on truncation): with a
1×1 grid and an empty chunk stream, every resolution `junk` of the
uninitialized tag byte still yields a fully populated grid and no error
is surfaced. -/
theorem truncated_stream_still_decodes (junk : Nat) :
    ∃ px, do_decode_image junk 1 1 [] = .ok [px] := by
  obtain ⟨p, st1, hstep⟩ :=
    decodeStep_isOk junk 1 0 ⟨List.replicate 64 ⟨0, 0, 0, 0⟩, ⟨0, 0, 0, 255⟩, 0, []⟩
  refine ⟨p, ?_⟩
  have hdef : do_decode_image junk 1 1 [] =
      decodeLoop junk 1 0 (0 + 1)
        ⟨List.replicate 64 ⟨0, 0, 0, 0⟩, ⟨0, 0, 0, 255⟩, 0, []⟩ := rfl
  rw [hdef, decodeLoop_succ junk 1 0 0 _ _ _ hstep]
  simp [decodeLoop, Except.map]

/-- C9 (refuting the claim): no input whatsoever can surface the
unknown-chunk error — every byte pattern is classified into one of the
six defined operations, so no decode step ever returns an error. -/
theorem no_unknown_chunk_error :
    ¬∃ junk width k st e, decodeStep junk width k st = .error e := by
  rintro ⟨junk, width, k, st, e, h⟩
  obtain ⟨p, st1, hok⟩ := decodeStep_isOk junk width k st
  rw [h] at hok
  exact Except.noConfusion hok

/-- C9 amended: the two full-byte tags plus the four 2-bit prefixes cover
every byte, so the defensive unknown-chunk branch is dead code and
decoding always returns a full `width * height` grid. -/
theorem decode_always_returns_full_grid (junk width height : Nat)
    (input : List Nat) :
    ∃ grid, do_decode_image junk width height input = .ok grid ∧
      grid.length = width * height := by
  obtain ⟨ps, hps, hlen⟩ := decodeLoop_isOk junk width (width * height) 0
    ⟨List.replicate 64 ⟨0, 0, 0, 0⟩, ⟨0, 0, 0, 255⟩, 0, input⟩
  exact ⟨ps, hps, hlen⟩
